import Mathlib

/-!
# Camera / projection pipeline of the wireframe renderer (src/main.cpp)

Shallow embedding of the numeric core of `src/main.cpp`.

* The C++ `float` / `double` values are modelled by the elements of a linearly ordered
  field `K`; every definition is generic in `K`, hence executable over `ℚ`.
  Rounding is not modelled: the theorems are statements about exact arithmetic.
* The functions `cos`, `sin`, `tan` and the constant `M_PI` come from the C math library,
  which is not part of the repository.  They are taken as a parameter `m : Libm K`.
  The theorems instantiate it with the real functions
  `Libm.mk Real.cos Real.sin Real.tan Real.pi`.
* The globals `screen_width`, `screen_height` (C `int`) are passed explicitly as a `Screen`.
* Member functions that mutate `Player` become functions returning the new `Player`.
* The drawing functions return the list of renderer calls they make, in order:
  `Cube.draw` the polylines passed to `SDL_RenderDrawLinesF`, `Axes.draw` the segments
  passed to `SDL_RenderDrawLineF`.
* The `int` additions `screen_width + 500`, `screen_height + 500` of `Cube::check_point`
  are computed in `ℤ`; this is exact for every size up to `INT_MAX - 500` (beyond that the
  C++ addition is undefined).
-/

namespace DDD

/-! ## Data model -/

/-- The C math library as used by the program: `cos`, `sin`, `tan` and `M_PI`. -/
structure Libm (K : Type) where
  cos : K → K
  sin : K → K
  tan : K → K
  pi : K

/-- Source: `typedef SDL_FPoint Point2D;` (line 45), fields `x`, `y`. -/
structure Point2D (K : Type) where
  x : K
  y : K
deriving DecidableEq

/-- Source: `struct Point3D` (lines 47-51). -/
structure Point3D (K : Type) where
  x : K
  y : K
  z : K
deriving DecidableEq

/-- Source: data members of `struct Player` (lines 134-136). -/
structure Player (K : Type) where
  m_pos : Point3D K
  m_vertical_view_angle : K
  m_horizontal_view_angle : K
deriving DecidableEq

/-- The globals `int screen_width; int screen_height;` (lines 24-25). -/
structure Screen where
  screen_width : ℤ
  screen_height : ℤ
deriving DecidableEq

/-- Source: data members of `struct Cube` (lines 221-222). -/
structure Cube (K : Type) where
  m_scale : K
  m_pos : Point3D K
deriving DecidableEq

/-- Source: data members of `struct Axes` (lines 262-263). -/
structure Axes (K : Type) where
  m_pos : Point3D K
  m_length : K
deriving DecidableEq

/-- The four `float` arguments `x1, y1, x2, y2` of one call of `SDL_RenderDrawLineF`. -/
structure Line2D (K : Type) where
  x1 : K
  y1 : K
  x2 : K
  y2 : K
deriving DecidableEq

/-- Source: `typedef Point3D Face[4];` (line 62). -/
abbrev Face (K : Type) : Type := Fin 4 → Point3D K

section Defs

variable {K : Type} [LinearOrderedField K]

/-! ## Constants (lines 96-98) -/

/-- Source: `#define FOV_IN_DEGREES 120.0`. -/
def FOV_IN_DEGREES : K := 120

/-- Source: `const double FOV = FOV_IN_DEGREES * M_PI / 180;`. -/
def FOV (m : Libm K) : K := FOV_IN_DEGREES * m.pi / 180

/-- Source: `const float tana2 = tan(FOV / 2);`. -/
def tana2 (m : Libm K) : K := m.tan (FOV m / 2)

/-! ## Player (lines 100-137) -/

/-- Source: constructor `Player(float x, float y, float z)` (lines 102-103). -/
def Player.init (x y z : K) : Player K :=
  { m_pos := ⟨x, y, z⟩, m_horizontal_view_angle := 0, m_vertical_view_angle := 0 }

/-- Source: `Player::move_forward` (lines 105-108): first `m_pos.z += cos(h) * d`,
then `m_pos.x += sin(h) * d`. -/
def Player.move_forward (m : Libm K) (player : Player K) (d : K) : Player K :=
  let p1 : Player K :=
    { player with m_pos := { player.m_pos with
        z := player.m_pos.z + m.cos player.m_horizontal_view_angle * d } }
  { p1 with m_pos := { p1.m_pos with
      x := p1.m_pos.x + m.sin p1.m_horizontal_view_angle * d } }

/-- Source: `Player::move_backward` (lines 110-112). -/
def Player.move_backward (m : Libm K) (player : Player K) (d : K) : Player K :=
  player.move_forward m (-d)

/-- Source: `Player::move_left` (lines 114-117): first `m_pos.z += sin(h) * d`,
then `m_pos.x -= cos(h) * d`. -/
def Player.move_left (m : Libm K) (player : Player K) (d : K) : Player K :=
  let p1 : Player K :=
    { player with m_pos := { player.m_pos with
        z := player.m_pos.z + m.sin player.m_horizontal_view_angle * d } }
  { p1 with m_pos := { p1.m_pos with
      x := p1.m_pos.x - m.cos p1.m_horizontal_view_angle * d } }

/-- Source: `Player::move_right` (lines 118-120). -/
def Player.move_right (m : Libm K) (player : Player K) (d : K) : Player K :=
  player.move_left m (-d)

/-- Source: `Player::move_x` (lines 122-124). -/
def Player.move_x (player : Player K) (dx : K) : Player K :=
  { player with m_pos := { player.m_pos with x := player.m_pos.x + dx } }

/-- Source: `Player::move_y` (lines 126-128). -/
def Player.move_y (player : Player K) (dy : K) : Player K :=
  { player with m_pos := { player.m_pos with y := player.m_pos.y + dy } }

/-- Source: `Player::move_z` (lines 130-132). -/
def Player.move_z (player : Player K) (dz : K) : Player K :=
  { player with m_pos := { player.m_pos with z := player.m_pos.z + dz } }

/-! ## Vector arithmetic (lines 139-148) -/

/-- Source: `Point3D operator*(const Point3D &p, float a)`. -/
def Point3D.scale (p : Point3D K) (a : K) : Point3D K :=
  ⟨p.x * a, p.y * a, p.z * a⟩

/-- Source: `Point3D operator+(const Point3D &p1, const Point3D &p2)`. -/
def Point3D.add (p1 p2 : Point3D K) : Point3D K :=
  ⟨p1.x + p2.x, p1.y + p2.y, p1.z + p2.z⟩

/-- Source: `Point3D operator-(const Point3D &p1, const Point3D &p2)`. -/
def Point3D.sub (p1 p2 : Point3D K) : Point3D K :=
  ⟨p1.x - p2.x, p1.y - p2.y, p1.z - p2.z⟩

instance : HMul (Point3D K) K (Point3D K) := ⟨Point3D.scale⟩
instance : Add (Point3D K) := ⟨Point3D.add⟩
instance : Sub (Point3D K) := ⟨Point3D.sub⟩

/-! ## Projection (lines 150-173) -/

/-- Source: the statement `if (p3.z < 1) p3.z = 1;` shared by both overloads of `project`
(lines 151 and 167). -/
def depth_clamp (p3 : Point3D K) : Point3D K :=
  if p3.z < 1 then { p3 with z := 1 } else p3

/-- Source: `inline Point2D project(Point3D p3)` (lines 150-153). -/
def project (m : Libm K) (p3 : Point3D K) : Point2D K :=
  let p3 := depth_clamp p3
  ⟨p3.x / (p3.z * tana2 m), p3.y / (p3.z * tana2 m)⟩

/-- Source: `inline Point3D rotate_y(float angle, Point3D p)` (lines 155-157). -/
def rotate_y (m : Libm K) (angle : K) (p : Point3D K) : Point3D K :=
  ⟨p.x * m.cos angle + p.z * m.sin angle, p.y, -m.sin angle * p.x + m.cos angle * p.z⟩

/-- Source: `inline Point3D rotate_y_around_point(float angle, Point3D p, Point3D origin)`
(lines 159-163). -/
def rotate_y_around_point (m : Libm K) (angle : K) (p origin : Point3D K) : Point3D K :=
  let p1 := p - origin
  let p1 := rotate_y m angle p1
  p1 + origin

/-- Source: the overload `inline Point2D project(Point3D p3, Player &player)`
(lines 165-169). -/
def project_player (m : Libm K) (p3 : Point3D K) (player : Player K) : Point2D K :=
  let p3 := p3 - player.m_pos
  let p3 := depth_clamp p3
  ⟨p3.x / (p3.z * tana2 m), p3.y / (p3.z * tana2 m)⟩

/-- Source: `inline Point2D project_with_camera(Point3D p, Player& player)`
(lines 171-173). -/
def project_with_camera (m : Libm K) (p : Point3D K) (player : Player K) : Point2D K :=
  project_player m
    (rotate_y_around_point m (-player.m_horizontal_view_angle) p player.m_pos) player

/-! ### Projection with the divisions checked

The same three functions, with each division replaced by a division that fails on a zero
divisor.  They are used to state that the failure branch is never taken. -/

/-- Division that reports a zero divisor instead of dividing. -/
def checked_div (a b : K) : Option K :=
  if b = 0 then none else some (a / b)

/-- The body of `project(Point3D p3)` (lines 150-153) with checked divisions. -/
def project_checked (m : Libm K) (p3 : Point3D K) : Option (Point2D K) :=
  let p3 := depth_clamp p3
  match checked_div p3.x (p3.z * tana2 m), checked_div p3.y (p3.z * tana2 m) with
  | some x, some y => some ⟨x, y⟩
  | _, _ => none

/-- The body of `project(Point3D p3, Player &player)` (lines 165-169) with checked
divisions. -/
def project_player_checked (m : Libm K) (p3 : Point3D K) (player : Player K) :
    Option (Point2D K) :=
  let p3 := p3 - player.m_pos
  let p3 := depth_clamp p3
  match checked_div p3.x (p3.z * tana2 m), checked_div p3.y (p3.z * tana2 m) with
  | some x, some y => some ⟨x, y⟩
  | _, _ => none

/-- The body of `project_with_camera` (lines 171-173) over the checked projection. -/
def project_with_camera_checked (m : Libm K) (p : Point3D K) (player : Player K) :
    Option (Point2D K) :=
  project_player_checked m
    (rotate_y_around_point m (-player.m_horizontal_view_angle) p player.m_pos) player

/-! ## Screen mapping (lines 175-182) -/

/-- The C++17 library function `std::clamp(v, lo, hi)`:
`(v < lo) ? lo : (hi < v) ? hi : v`. -/
def std_clamp (v lo hi : K) : K :=
  if v < lo then lo else if hi < v then hi else v

/-- The clamp of the specification (section 4.3): the value `v` confined to `[lo, hi]`. -/
def clamp_spec (v lo hi : K) : K :=
  max lo (min v hi)

/-- Source: `inline Point2D place_projected_point(Point2D point)` (lines 175-178). -/
def place_projected_point (s : Screen) (point : Point2D K) : Point2D K :=
  ⟨std_clamp (point.x * (s.screen_width : K) + (s.screen_width : K) * (1 / 2))
      (-500) ((s.screen_width : K) + 500),
   std_clamp (point.y * (s.screen_width : K) + (s.screen_height : K) * (1 / 2))
      (-500) ((s.screen_height : K) + 500)⟩

/-- Source: `inline Point2D get_onscreen_point(Point3D p, Player &player)`
(lines 180-182). -/
def get_onscreen_point (m : Libm K) (s : Screen) (p : Point3D K) (player : Player K) :
    Point2D K :=
  place_projected_point s (project_with_camera m p player)

/-! ## Look update (lines 304-307) -/

/-- Source: the `SDL_MOUSEMOTION` case of the event loop in `main` (lines 304-307);
`xrel`, `yrel` are the `Sint32` fields `event.motion.xrel`, `event.motion.yrel`. -/
def mouse_motion (m : Libm K) (player : Player K) (xrel yrel : ℤ) : Player K :=
  let v : K := std_clamp (player.m_vertical_view_angle + (yrel : K) / 400) (-m.pi / 2) (m.pi / 2)
  let p1 : Player K := { player with m_vertical_view_angle := v }
  { p1 with m_horizontal_view_angle := p1.m_horizontal_view_angle + (xrel : K) / 400 }

/-- A sequence of pointer-motion events `(xrel, yrel)` applied in order. -/
def mouse_motions (m : Libm K) (player : Player K) (evs : List (ℤ × ℤ)) : Player K :=
  evs.foldl (fun pl ev => mouse_motion m pl ev.1 ev.2) player

/-! ## Cube (lines 64-93 and 184-227) -/

/-- Source: `const Face cube_faces[]` (lines 64-93): bottom, top, front, back. -/
def cube_faces : List (Face K) :=
  [ ![⟨-0.5, 0.5, -0.5⟩, ⟨0.5, 0.5, -0.5⟩, ⟨0.5, 0.5, 0.5⟩, ⟨-0.5, 0.5, 0.5⟩],
    ![⟨-0.5, -0.5, -0.5⟩, ⟨0.5, -0.5, -0.5⟩, ⟨0.5, -0.5, 0.5⟩, ⟨-0.5, -0.5, 0.5⟩],
    ![⟨-0.5, -0.5, 0.5⟩, ⟨0.5, -0.5, 0.5⟩, ⟨0.5, 0.5, 0.5⟩, ⟨-0.5, 0.5, 0.5⟩],
    ![⟨-0.5, -0.5, -0.5⟩, ⟨0.5, -0.5, -0.5⟩, ⟨0.5, 0.5, -0.5⟩, ⟨-0.5, 0.5, -0.5⟩] ]

/-- Source: constructor `Cube(Point3D pos, float scale)` (line 185). -/
def Cube.init (pos : Point3D K) (scale : K) : Cube K :=
  { m_pos := pos, m_scale := scale }

/-- Source: the first conjunct of `Cube::check_point` (line 225),
`(-500 <= p.x && p.x <= screen_width + 500)`; `screen_width + 500` is an `int` sum, converted
to `float` for the comparison. -/
def Cube.check_point_x (s : Screen) (p : Point2D K) : Bool :=
  decide ((-500 : K) ≤ p.x) && decide (p.x ≤ ((s.screen_width + 500 : ℤ) : K))

/-- Source: the second conjunct of `Cube::check_point` (line 225),
`(-500 <= p.y <= screen_height + 500)`.  C++ parses it as
`(-500 <= p.y) <= screen_height + 500`: the inner comparison is a `bool`, promoted to the
`int` 0 or 1, which is then compared with the `int` `screen_height + 500`. -/
def Cube.check_point_y (s : Screen) (p : Point2D K) : Bool :=
  decide ((if (-500 : K) ≤ p.y then (1 : ℤ) else 0) ≤ s.screen_height + 500)

/-- Source: `bool Cube::check_point(Point2D &p)` (lines 224-226). -/
def Cube.check_point (s : Screen) (p : Point2D K) : Bool :=
  Cube.check_point_x s p && Cube.check_point_y s p

/-- Source: the array `pts` of one iteration of the loop of `Cube::draw` after line 204:
`pts[j] = get_onscreen_point(cube_faces[i][j] * m_scale + m_pos, player)` for `j = 0..3`
and `pts[4] = pts[0]`. -/
def Cube.face_points (m : Libm K) (s : Screen) (cube : Cube K) (player : Player K)
    (face : Face K) : List (Point2D K) :=
  let pts : Fin 4 → Point2D K := fun j =>
    get_onscreen_point m s (face j * cube.m_scale + cube.m_pos) player
  [pts 0, pts 1, pts 2, pts 3, pts 0]

/-- Source: the loop of `Cube::draw` (lines 195-207) over the remaining faces of the table.
The result lists the polylines passed to `SDL_RenderDrawLinesF`; the `return` of line 202
ends the whole loop. -/
def Cube.draw_faces (m : Libm K) (s : Screen) (cube : Cube K) (player : Player K) :
    List (Face K) → List (List (Point2D K))
  | [] => []
  | face :: rest =>
    let pts0 : Point2D K := get_onscreen_point m s (face 0 * cube.m_scale + cube.m_pos) player
    if !Cube.check_point s pts0 then []
    else Cube.face_points m s cube player face :: Cube.draw_faces m s cube player rest

/-- Source: `void Cube::draw(SDL_Renderer *renderer, Player &player)` (lines 193-208); the
loop `for (int i = 0; i < 4; ++i)` visits the four entries of `cube_faces` in order. -/
def Cube.draw (m : Libm K) (s : Screen) (cube : Cube K) (player : Player K) :
    List (List (Point2D K)) :=
  Cube.draw_faces m s cube player (cube_faces.take 4)

/-- The segments drawn for one closed face: `SDL_RenderDrawLinesF` with the 5 points
`v0 v1 v2 v3 v0` draws `v0-v1`, `v1-v2`, `v2-v3`, `v3-v0`. -/
def face_segments (face : Face K) : List (Point3D K × Point3D K) :=
  [(face 0, face 1), (face 1, face 2), (face 2, face 3), (face 3, face 0)]

/-- All segments of the table `cube_faces`, in drawing order. -/
def cube_segments : List (Point3D K × Point3D K) :=
  (cube_faces.map face_segments).flatten

/-- Two points differ in exactly one of their three coordinates. -/
def differ_in_one (u v : Point3D K) : Prop :=
  (u.x ≠ v.x ∧ u.y = v.y ∧ u.z = v.z) ∨ (u.x = v.x ∧ u.y ≠ v.y ∧ u.z = v.z) ∨
    (u.x = v.x ∧ u.y = v.y ∧ u.z ≠ v.z)

instance (u v : Point3D K) : Decidable (differ_in_one u v) := by
  unfold differ_in_one
  infer_instance

/-- The 8 corners of the cube `[-0.5, 0.5]^3` (geometric reference for the face table). -/
def unit_cube_vertices : List (Point3D K) :=
  [ ⟨-0.5, -0.5, -0.5⟩, ⟨-0.5, -0.5, 0.5⟩, ⟨-0.5, 0.5, -0.5⟩, ⟨-0.5, 0.5, 0.5⟩,
    ⟨0.5, -0.5, -0.5⟩, ⟨0.5, -0.5, 0.5⟩, ⟨0.5, 0.5, -0.5⟩, ⟨0.5, 0.5, 0.5⟩ ]

/-- The edges of the cube `[-0.5, 0.5]^3`, as ordered pairs of corners that differ in exactly
one coordinate (each edge appears in both directions). -/
def unit_cube_edges : List (Point3D K × Point3D K) :=
  (unit_cube_vertices.map fun u =>
    (unit_cube_vertices.filter fun v => decide (differ_in_one u v)).map fun v => (u, v)).flatten

/-! ## Axes (lines 230-264) -/

/-- Source: constructor `Axes(Point3D pos, float length)` (line 232). -/
def Axes.init (pos : Point3D K) (length : K) : Axes K :=
  { m_pos := pos, m_length := length }

/-- Source: `void Axes::draw(SDL_Renderer *renderer, Player &player)` (lines 234-259): the
eleven calls of `SDL_RenderDrawLineF`, in order. -/
def Axes.draw (m : Libm K) (s : Screen) (axes : Axes K) (player : Player K) :
    List (Line2D K) :=
  let origin := get_onscreen_point m s axes.m_pos player
  let x := get_onscreen_point m s (axes.m_pos + ⟨1 * axes.m_length, 0, 0⟩) player
  let y := get_onscreen_point m s (axes.m_pos + ⟨0, 1 * axes.m_length, 0⟩) player
  let z := get_onscreen_point m s (axes.m_pos + ⟨0, 0, 1 * axes.m_length⟩) player
  [ ⟨origin.x, origin.y, x.x, x.y⟩,
    ⟨x.x - 10, x.y - 20, x.x + 10, x.y⟩,
    ⟨x.x - 10, x.y, x.x + 10, x.y - 20⟩,
    ⟨origin.x, origin.y, y.x, y.y⟩,
    ⟨y.x + 15, y.y, y.x + 15, y.y - 10⟩,
    ⟨y.x + 15, y.y - 10, y.x + 5, y.y - 20⟩,
    ⟨y.x + 15, y.y - 10, y.x + 25, y.y - 20⟩,
    ⟨origin.x, origin.y, z.x, z.y⟩,
    ⟨z.x - 10, z.y - 5, z.x + 10, z.y - 5⟩,
    ⟨z.x + 10, z.y - 5, z.x - 10, z.y + 20⟩,
    ⟨z.x - 10, z.y + 20, z.x + 10, z.y + 20⟩ ]

/-- The pixel offsets of the glyph at the tip of the x axis (lines 244-245), one entry per
segment: offsets of the start point, then of the end point. -/
def Axes.x_glyph : List (Line2D K) :=
  [⟨-10, -20, 10, 0⟩, ⟨-10, 0, 10, -20⟩]

/-- The pixel offsets of the glyph at the tip of the y axis (lines 249-251). -/
def Axes.y_glyph : List (Line2D K) :=
  [⟨15, 0, 15, -10⟩, ⟨15, -10, 5, -20⟩, ⟨15, -10, 25, -20⟩]

/-- The pixel offsets of the glyph at the tip of the z axis (lines 254-256). -/
def Axes.z_glyph : List (Line2D K) :=
  [⟨-10, -5, 10, -5⟩, ⟨10, -5, -10, 20⟩, ⟨-10, 20, 10, 20⟩]

/-- The segments obtained by adding the offsets of a glyph to a tip. -/
def Axes.glyph_at (tip : Point2D K) (glyph : List (Line2D K)) : List (Line2D K) :=
  glyph.map fun o => ⟨tip.x + o.x1, tip.y + o.y1, tip.x + o.x2, tip.y + o.y2⟩

end Defs

/-! ## Shared lemmas -/

section Lemmas

variable {K : Type} [LinearOrderedField K]

theorem Point3D.sub_def (a b : Point3D K) : a - b = ⟨a.x - b.x, a.y - b.y, a.z - b.z⟩ := rfl

theorem Point3D.add_def (a b : Point3D K) : a + b = ⟨a.x + b.x, a.y + b.y, a.z + b.z⟩ := rfl

theorem Point3D.scale_def (a : Point3D K) (k : K) : a * k = ⟨a.x * k, a.y * k, a.z * k⟩ := rfl

/-- The translation back by `origin` at the end of `rotate_y_around_point` is undone by
subtracting `origin` again. -/
theorem rotate_y_around_point_sub (m : Libm K) (angle : K) (p origin : Point3D K) :
    rotate_y_around_point m angle p origin - origin = rotate_y m angle (p - origin) := by
  simp [rotate_y_around_point, Point3D.sub_def, Point3D.add_def]

theorem depth_clamp_x (q : Point3D K) : (depth_clamp q).x = q.x := by
  unfold depth_clamp; split <;> rfl

theorem depth_clamp_y (q : Point3D K) : (depth_clamp q).y = q.y := by
  unfold depth_clamp; split <;> rfl

theorem depth_clamp_z (q : Point3D K) : (depth_clamp q).z = max q.z 1 := by
  unfold depth_clamp
  split
  · next h => simp [max_eq_right h.le]
  · next h => simp [max_eq_left (not_lt.mp h)]

theorem one_le_depth_clamp_z (q : Point3D K) : 1 ≤ (depth_clamp q).z := by
  rw [depth_clamp_z]; exact le_max_right _ _

/-- What `project_with_camera` computes, in terms of the rotated camera-relative point. -/
theorem project_with_camera_eq (m : Libm K) (p : Point3D K) (player : Player K) :
    project_with_camera m p player =
      ⟨(rotate_y m (-player.m_horizontal_view_angle) (p - player.m_pos)).x /
          ((depth_clamp (rotate_y m (-player.m_horizontal_view_angle) (p - player.m_pos))).z *
            tana2 m),
       (rotate_y m (-player.m_horizontal_view_angle) (p - player.m_pos)).y /
          ((depth_clamp (rotate_y m (-player.m_horizontal_view_angle) (p - player.m_pos))).z *
            tana2 m)⟩ := by
  simp only [project_with_camera, project_player, rotate_y_around_point_sub, depth_clamp_x,
    depth_clamp_y]

/-- For a non-empty interval the library clamp is the clamp of the specification. -/
theorem std_clamp_eq_clamp_spec (v lo hi : K) (h : lo ≤ hi) :
    std_clamp v lo hi = clamp_spec v lo hi := by
  unfold std_clamp clamp_spec
  split_ifs with h1 h2
  · rw [max_eq_left (le_trans (min_le_left _ _) h1.le)]
  · rw [min_eq_right h2.le, max_eq_right h]
  · rw [min_eq_left (not_lt.mp h2), max_eq_right (not_lt.mp h1)]

theorem std_clamp_mem (v lo hi : K) (h : lo ≤ hi) :
    lo ≤ std_clamp v lo hi ∧ std_clamp v lo hi ≤ hi := by
  unfold std_clamp
  split_ifs with h1 h2
  · exact ⟨le_rfl, h⟩
  · exact ⟨h, le_rfl⟩
  · exact ⟨not_lt.mp h1, not_lt.mp h2⟩

theorem std_clamp_ne (v lo hi : K) (h : std_clamp v lo hi ≠ v) : v < lo ∨ hi < v := by
  unfold std_clamp at h
  split_ifs at h with h1 h2
  · exact Or.inl h1
  · exact Or.inr h2
  · exact absurd rfl h

theorem project_eq (m : Libm K) (p : Point3D K) :
    project m p =
      ⟨p.x / ((depth_clamp p).z * tana2 m), p.y / ((depth_clamp p).z * tana2 m)⟩ := by
  simp only [project, depth_clamp_x, depth_clamp_y]

theorem project_player_eq (m : Libm K) (p : Point3D K) (player : Player K) :
    project_player m p player =
      ⟨(p - player.m_pos).x / ((depth_clamp (p - player.m_pos)).z * tana2 m),
       (p - player.m_pos).y / ((depth_clamp (p - player.m_pos)).z * tana2 m)⟩ := by
  simp only [project_player, depth_clamp_x, depth_clamp_y]

theorem checked_div_of_ne_zero (a b : K) (h : b ≠ 0) : checked_div a b = some (a / b) := by
  simp [checked_div, h]

/-- When the divisor is not zero the checked projections agree with the unchecked ones. -/
theorem project_checked_of_ne_zero (m : Libm K) (p : Point3D K)
    (h : (depth_clamp p).z * tana2 m ≠ 0) : project_checked m p = some (project m p) := by
  simp only [project_checked, project, checked_div_of_ne_zero _ _ h]

theorem project_player_checked_of_ne_zero (m : Libm K) (p : Point3D K) (player : Player K)
    (h : (depth_clamp (p - player.m_pos)).z * tana2 m ≠ 0) :
    project_player_checked m p player = some (project_player m p player) := by
  simp only [project_player_checked, project_player, checked_div_of_ne_zero _ _ h]

end Lemmas

/-- With the real tangent and `M_PI = π`, the constant `tana2` is `tan 60° = √3`. -/
theorem tana2_real : tana2 (Libm.mk Real.cos Real.sin Real.tan Real.pi) = Real.sqrt 3 := by
  have h : (120 : ℝ) * Real.pi / 180 / 2 = Real.pi / 3 := by ring
  simp only [tana2, FOV, FOV_IN_DEGREES, h, Real.tan_pi_div_three]

theorem mouse_motions_nil {K : Type} [LinearOrderedField K] (m : Libm K) (player : Player K) :
    mouse_motions m player [] = player := rfl

theorem mouse_motions_cons {K : Type} [LinearOrderedField K] (m : Libm K) (player : Player K)
    (ev : ℤ × ℤ) (evs : List (ℤ × ℤ)) :
    mouse_motions m player (ev :: evs) = mouse_motions m (mouse_motion m player ev.1 ev.2) evs :=
  rfl

/-- One look update with the real `π`: the new vertical angle is the clamped sum. -/
theorem mouse_motion_vertical (player : Player ℝ) (dx dy : ℤ) :
    (mouse_motion (Libm.mk Real.cos Real.sin Real.tan Real.pi) player dx dy).m_vertical_view_angle
      = clamp_spec (player.m_vertical_view_angle + (dy : ℝ) / 400)
          (-(Real.pi / 2)) (Real.pi / 2) := by
  have hpi := Real.pi_pos
  have e : -Real.pi / 2 = -(Real.pi / 2) := by ring
  simp only [mouse_motion, e]
  exact std_clamp_eq_clamp_spec _ _ _ (by linarith)

/-- One look update keeps the vertical angle in `[-π/2, π/2]`, whatever it was before. -/
theorem mouse_motion_vertical_mem (player : Player ℝ) (dx dy : ℤ) :
    -(Real.pi / 2) ≤
      (mouse_motion (Libm.mk Real.cos Real.sin Real.tan Real.pi) player dx dy).m_vertical_view_angle
    ∧ (mouse_motion (Libm.mk Real.cos Real.sin Real.tan Real.pi) player dx dy).m_vertical_view_angle
      ≤ Real.pi / 2 := by
  have hpi := Real.pi_pos
  rw [mouse_motion_vertical]
  unfold clamp_spec
  exact ⟨le_max_left _ _, max_le (by linarith) (min_le_right _ _)⟩

/-- A look update with `dy ≥ 0` from a vertical angle of exactly `π/2` stays at `π/2`. -/
theorem mouse_motion_vertical_top (player : Player ℝ) (dx dy : ℤ)
    (hv : player.m_vertical_view_angle = Real.pi / 2) (hdy : 0 ≤ dy) :
    (mouse_motion (Libm.mk Real.cos Real.sin Real.tan Real.pi) player dx dy).m_vertical_view_angle
      = Real.pi / 2 := by
  have hpi := Real.pi_pos
  have h0 : (0 : ℝ) ≤ (dy : ℝ) / 400 := div_nonneg (Int.cast_nonneg.mpr hdy) (by norm_num)
  rw [mouse_motion_vertical, hv]
  unfold clamp_spec
  rw [min_eq_right (by linarith), max_eq_right (by linarith)]

theorem mouse_motions_vertical_top (evs : List (ℤ × ℤ)) (player : Player ℝ)
    (hv : player.m_vertical_view_angle = Real.pi / 2) (hevs : ∀ ev ∈ evs, 0 ≤ ev.2) :
    (mouse_motions (Libm.mk Real.cos Real.sin Real.tan Real.pi) player evs).m_vertical_view_angle
      = Real.pi / 2 := by
  induction evs generalizing player with
  | nil => exact hv
  | cons ev evs ih =>
    rw [mouse_motions_cons]
    exact ih _ (mouse_motion_vertical_top player ev.1 ev.2 hv (hevs ev (List.mem_cons_self _ _)))
      (fun e he => hevs e (List.mem_cons_of_mem _ he))

theorem mouse_motions_vertical_mem (evs : List (ℤ × ℤ)) (player : Player ℝ)
    (hv : -(Real.pi / 2) ≤ player.m_vertical_view_angle ∧
      player.m_vertical_view_angle ≤ Real.pi / 2) :
    -(Real.pi / 2) ≤
      (mouse_motions (Libm.mk Real.cos Real.sin Real.tan Real.pi) player evs).m_vertical_view_angle
    ∧ (mouse_motions (Libm.mk Real.cos Real.sin Real.tan Real.pi) player evs).m_vertical_view_angle
      ≤ Real.pi / 2 := by
  induction evs generalizing player with
  | nil => exact hv
  | cons ev evs ih =>
    rw [mouse_motions_cons]
    exact ih _ (mouse_motion_vertical_mem player ev.1 ev.2)

theorem mouse_motions_horizontal (evs : List (ℤ × ℤ)) (player : Player ℝ) :
    (mouse_motions (Libm.mk Real.cos Real.sin Real.tan Real.pi) player
        evs).m_horizontal_view_angle
      = player.m_horizontal_view_angle + (((evs.map Prod.fst).sum : ℤ) : ℝ) / 400 := by
  induction evs generalizing player with
  | nil => simp [mouse_motions_nil]
  | cons ev evs ih =>
    rw [mouse_motions_cons, ih]
    simp only [mouse_motion, List.map_cons, List.sum_cons, Int.cast_add]
    ring

theorem tana2_real_pos : 0 < tana2 (Libm.mk Real.cos Real.sin Real.tan Real.pi) := by
  rw [tana2_real]; exact Real.sqrt_pos.mpr (by norm_num)

/-! ## C1 - C3 : the projection -/

/-- C1. For every world point and camera state, `project_with_camera` returns
`(x' / (zc * t), y' / (zc * t))`, where `(x', y', z')` is `p - pos` rotated in the X-Z plane
by `θ = -h`, `zc = max z' 1` and `t = tan (FOV / 2)` with `FOV` = 120 degrees; the
`+ origin` of `rotate_y_around_point` is cancelled by the `- player.m_pos` of `project`,
and the vertical view angle does not influence the result. -/
theorem C1_project_with_camera_formula (p : Point3D ℝ) (player : Player ℝ) :
    let m : Libm ℝ := Libm.mk Real.cos Real.sin Real.tan Real.pi
    let θ : ℝ := -player.m_horizontal_view_angle
    let x : ℝ := p.x - player.m_pos.x
    let y : ℝ := p.y - player.m_pos.y
    let z : ℝ := p.z - player.m_pos.z
    let x1 : ℝ := x * Real.cos θ + z * Real.sin θ
    let y1 : ℝ := y
    let z1 : ℝ := -x * Real.sin θ + z * Real.cos θ
    let zc : ℝ := max z1 1
    let t : ℝ := Real.tan ((120 * Real.pi / 180) / 2)
    project_with_camera m p player = ⟨x1 / (zc * t), y1 / (zc * t)⟩ ∧
    rotate_y_around_point m θ p player.m_pos - player.m_pos = ⟨x1, y1, z1⟩ ∧
    ∀ v : ℝ, project_with_camera m p { player with m_vertical_view_angle := v } =
      project_with_camera m p player := by
  intro m θ x y z x1 y1 z1 zc t
  have hrot : rotate_y m θ (p - player.m_pos) = ⟨x1, y1, z1⟩ := by
    simp only [rotate_y, Point3D.sub_def, m, x1, y1, z1, x, y, z]
    congr 1
    ring
  refine ⟨?_, ?_, ?_⟩
  · rw [project_with_camera_eq, hrot, depth_clamp_z]
    rfl
  · rw [rotate_y_around_point_sub, hrot]
  · intro v
    rfl

/-- C2. Depth clamp.  The depth used as divisor by both overloads of `project` and by
`project_with_camera` is the `z` of `depth_clamp` of the camera-relative point.  When the
camera-relative depth is below 1 (zero and negative included) that depth is exactly 1 and the
result is `(x' / tan (FOV/2), y' / tan (FOV/2))`; when it is at least 1 the depth is used
unchanged; the depth used is never below 1 and never negative. -/
theorem C2_depth_clamp (p : Point3D ℝ) (player : Player ℝ) :
    let m : Libm ℝ := Libm.mk Real.cos Real.sin Real.tan Real.pi
    let q : Point3D ℝ := rotate_y m (-player.m_horizontal_view_angle) (p - player.m_pos)
    let r : Point3D ℝ := p - player.m_pos
    (project_with_camera m p player =
        ⟨q.x / ((depth_clamp q).z * tana2 m), q.y / ((depth_clamp q).z * tana2 m)⟩ ∧
      project_player m p player =
        ⟨r.x / ((depth_clamp r).z * tana2 m), r.y / ((depth_clamp r).z * tana2 m)⟩ ∧
      project m p =
        ⟨p.x / ((depth_clamp p).z * tana2 m), p.y / ((depth_clamp p).z * tana2 m)⟩) ∧
    (q.z < 1 → (depth_clamp q).z = 1 ∧
      project_with_camera m p player = ⟨q.x / tana2 m, q.y / tana2 m⟩) ∧
    (r.z < 1 → (depth_clamp r).z = 1 ∧
      project_player m p player = ⟨r.x / tana2 m, r.y / tana2 m⟩) ∧
    (p.z < 1 → (depth_clamp p).z = 1 ∧ project m p = ⟨p.x / tana2 m, p.y / tana2 m⟩) ∧
    (1 ≤ q.z → (depth_clamp q).z = q.z) ∧
    (1 ≤ r.z → (depth_clamp r).z = r.z) ∧
    (1 ≤ p.z → (depth_clamp p).z = p.z) ∧
    (∀ w : Point3D ℝ, 1 ≤ (depth_clamp w).z ∧ 0 ≤ (depth_clamp w).z ∧
      ¬ (depth_clamp w).z < 1 ∧ ¬ (depth_clamp w).z < 0) := by
  intro m q r
  have hlt : ∀ w : Point3D ℝ, w.z < 1 → (depth_clamp w).z = 1 := fun w hw => by
    rw [depth_clamp_z, max_eq_right hw.le]
  have hge : ∀ w : Point3D ℝ, 1 ≤ w.z → (depth_clamp w).z = w.z := fun w hw => by
    rw [depth_clamp_z, max_eq_left hw]
  refine ⟨⟨project_with_camera_eq m p player, project_player_eq m p player, project_eq m p⟩,
    ?_, ?_, ?_, hge q, hge r, hge p, ?_⟩
  · intro h
    refine ⟨hlt q h, ?_⟩
    rw [project_with_camera_eq, hlt q h, one_mul]
  · intro h
    refine ⟨hlt r h, ?_⟩
    rw [project_player_eq, hlt r h, one_mul]
  · intro h
    refine ⟨hlt p h, ?_⟩
    rw [project_eq, hlt p h, one_mul]
  · intro w
    have h1 := one_le_depth_clamp_z w
    exact ⟨h1, by linarith, not_lt.mpr h1, by linarith⟩

/-- C3. The projection has no failure mode.  For every world point and camera state the
divisor `effective depth * tan (FOV/2)` used by `project_with_camera` and by both overloads
of `project` is at least `tan 60° = √3`, hence strictly positive, and the projections with
checked divisions never take the zero-divisor branch: they return the value of the unchecked
ones. -/
theorem C3_projection_divisor_pos (p : Point3D ℝ) (player : Player ℝ) :
    let m : Libm ℝ := Libm.mk Real.cos Real.sin Real.tan Real.pi
    let q : Point3D ℝ := rotate_y m (-player.m_horizontal_view_angle) (p - player.m_pos)
    let r : Point3D ℝ := p - player.m_pos
    let d : Point3D ℝ → ℝ := fun w => (depth_clamp w).z * tana2 m
    tana2 m = Real.sqrt 3 ∧
    (∀ w : Point3D ℝ, Real.sqrt 3 ≤ d w ∧ 0 < d w ∧ d w ≠ 0) ∧
    (project_with_camera m p player = ⟨q.x / d q, q.y / d q⟩ ∧
      project_with_camera_checked m p player = some (project_with_camera m p player)) ∧
    (project_player m p player = ⟨r.x / d r, r.y / d r⟩ ∧
      project_player_checked m p player = some (project_player m p player)) ∧
    (project m p = ⟨p.x / d p, p.y / d p⟩ ∧
      project_checked m p = some (project m p)) := by
  intro m q r d
  have hd : ∀ w : Point3D ℝ, Real.sqrt 3 ≤ d w ∧ 0 < d w ∧ d w ≠ 0 := by
    intro w
    have h1 := one_le_depth_clamp_z w
    have ht : 0 < tana2 m := tana2_real_pos
    have hle : Real.sqrt 3 ≤ d w := by
      have hm : tana2 m ≤ (depth_clamp w).z * tana2 m := le_mul_of_one_le_left ht.le h1
      exact le_of_eq_of_le tana2_real.symm hm
    have hpos : 0 < d w := mul_pos (by linarith) ht
    exact ⟨hle, hpos, hpos.ne.symm⟩
  refine ⟨tana2_real, hd, ⟨project_with_camera_eq m p player, ?_⟩,
    ⟨project_player_eq m p player, ?_⟩, ⟨project_eq m p, ?_⟩⟩
  · exact project_player_checked_of_ne_zero m _ player (by
      rw [rotate_y_around_point_sub]; exact (hd q).2.2)
  · exact project_player_checked_of_ne_zero m p player (hd r).2.2
  · exact project_checked_of_ne_zero m p (hd p).2.2

/-! ## C4 : screen mapping -/

/-- C4. Screen mapping.  For a screen with `screen_width ≥ 0` and `screen_height ≥ 0`,
`place_projected_point` returns `(clamp (nx * width + width / 2) (-500) (width + 500),
clamp (ny * width + height / 2) (-500) (height + 500))`, both axes scaled by the width; the
result lies in `[-500, width + 500] × [-500, height + 500]`, and a coordinate differs from
its unclamped value only when that value lies outside its interval. -/
theorem C4_place_projected_point (s : Screen) (point : Point2D ℝ)
    (hw : 0 ≤ s.screen_width) (hh : 0 ≤ s.screen_height) :
    let w : ℝ := (s.screen_width : ℝ)
    let h : ℝ := (s.screen_height : ℝ)
    let ux : ℝ := point.x * w + w / 2
    let uy : ℝ := point.y * w + h / 2
    let r : Point2D ℝ := place_projected_point s point
    r = ⟨clamp_spec ux (-500) (w + 500), clamp_spec uy (-500) (h + 500)⟩ ∧
    (-500 ≤ r.x ∧ r.x ≤ w + 500 ∧ -500 ≤ r.y ∧ r.y ≤ h + 500) ∧
    (r.x ≠ ux → ux < -500 ∨ w + 500 < ux) ∧
    (r.y ≠ uy → uy < -500 ∨ h + 500 < uy) := by
  intro w h ux uy r
  have hw0 : (0 : ℝ) ≤ w := Int.cast_nonneg.mpr hw
  have hh0 : (0 : ℝ) ≤ h := Int.cast_nonneg.mpr hh
  have hwi : (-500 : ℝ) ≤ w + 500 := by linarith
  have hhi : (-500 : ℝ) ≤ h + 500 := by linarith
  have hx : r.x = std_clamp ux (-500) (w + 500) := by
    simp only [r, place_projected_point, ux, w]
    congr 1
    ring
  have hy : r.y = std_clamp uy (-500) (h + 500) := by
    simp only [r, place_projected_point, uy, w, h]
    congr 1
    ring
  refine ⟨?_, ⟨?_, ?_, ?_, ?_⟩, ?_, ?_⟩
  · have e : r = ⟨r.x, r.y⟩ := rfl
    rw [e, hx, hy, std_clamp_eq_clamp_spec _ _ _ hwi, std_clamp_eq_clamp_spec _ _ _ hhi]
  · rw [hx]; exact (std_clamp_mem _ _ _ hwi).1
  · rw [hx]; exact (std_clamp_mem _ _ _ hwi).2
  · rw [hy]; exact (std_clamp_mem _ _ _ hhi).1
  · rw [hy]; exact (std_clamp_mem _ _ _ hhi).2
  · intro hne
    rw [hx] at hne
    exact std_clamp_ne _ _ _ hne
  · intro hne
    rw [hy] at hne
    exact std_clamp_ne _ _ _ hne

/-- Witness for C4: an 800 x 600 screen and the normalized point `(1, -3)`; the x coordinate
`1 * 800 + 400 = 1200` is kept, the y coordinate `-3 * 800 + 300 = -2100` is clamped to
`-500`. -/
theorem C4_place_projected_point_witness :
    (0 : ℤ) ≤ (⟨800, 600⟩ : Screen).screen_width ∧
    (0 : ℤ) ≤ (⟨800, 600⟩ : Screen).screen_height ∧
    place_projected_point ⟨800, 600⟩ (⟨1, -3⟩ : Point2D ℝ) = ⟨1200, -500⟩ := by
  refine ⟨by decide, by decide, ?_⟩
  have h := (C4_place_projected_point ⟨800, 600⟩ (⟨1, -3⟩ : Point2D ℝ)
    (by decide) (by decide)).1
  rw [h]
  norm_num [clamp_spec]

/-! ## C5 - C7 : properties of the projection and of the rotation -/

/-- C5. For a camera with horizontal angle 0 and a world point whose depth seen from the
camera, `p.z - cam.z`, is at least 1, `project_with_camera` is the pure perspective divide
`((x - cam.x) / (z * tan (FOV/2)), (y - cam.y) / (z * tan (FOV/2)))`. -/
theorem C5_pure_perspective_divide (p : Point3D ℝ) (player : Player ℝ)
    (hθ : player.m_horizontal_view_angle = 0) (hz : 1 ≤ p.z - player.m_pos.z) :
    let m : Libm ℝ := Libm.mk Real.cos Real.sin Real.tan Real.pi
    let z : ℝ := p.z - player.m_pos.z
    project_with_camera m p player =
      ⟨(p.x - player.m_pos.x) / (z * Real.tan (FOV m / 2)),
       (p.y - player.m_pos.y) / (z * Real.tan (FOV m / 2))⟩ := by
  intro m z
  have hrot : rotate_y m (-player.m_horizontal_view_angle) (p - player.m_pos) =
      ⟨p.x - player.m_pos.x, p.y - player.m_pos.y, z⟩ := by
    simp [rotate_y, Point3D.sub_def, m, hθ, z]
  rw [project_with_camera_eq, hrot, depth_clamp_z, max_eq_left hz]
  rfl

/-- Witness for C5: camera at `(1, 1, 1)` with both angles 0 and the world point `(5, 3, 3)`,
whose depth seen from the camera is 2. -/
theorem C5_pure_perspective_divide_witness :
    (Player.init (1 : ℝ) 1 1).m_horizontal_view_angle = 0 ∧
    (1 : ℝ) ≤ (⟨5, 3, 3⟩ : Point3D ℝ).z - (Player.init (1 : ℝ) 1 1).m_pos.z ∧
    project_with_camera (Libm.mk Real.cos Real.sin Real.tan Real.pi) (⟨5, 3, 3⟩ : Point3D ℝ)
        (Player.init 1 1 1) =
      ⟨4 / (2 * Real.sqrt 3), 2 / (2 * Real.sqrt 3)⟩ := by
  have h0 : (Player.init (1 : ℝ) 1 1).m_horizontal_view_angle = 0 := rfl
  have h1 : (1 : ℝ) ≤ (⟨5, 3, 3⟩ : Point3D ℝ).z - (Player.init (1 : ℝ) 1 1).m_pos.z := by
    norm_num [Player.init]
  refine ⟨h0, h1, ?_⟩
  have h := C5_pure_perspective_divide (⟨5, 3, 3⟩ : Point3D ℝ) (Player.init 1 1 1) h0 h1
  have ht : Real.tan (FOV (Libm.mk Real.cos Real.sin Real.tan Real.pi) / 2) = Real.sqrt 3 :=
    tana2_real
  simp only [ht] at h
  rw [h]
  norm_num [Player.init]

/-- C6. Rotation property: `rotate_y 0 p = p`, and for every angle `rotate_y θ p` has the
same `y` and the same `x² + z²` as `p`. -/
theorem C6_rotate_y (θ : ℝ) (p : Point3D ℝ) :
    let m : Libm ℝ := Libm.mk Real.cos Real.sin Real.tan Real.pi
    rotate_y m 0 p = p ∧
    (rotate_y m θ p).y = p.y ∧
    (rotate_y m θ p).x ^ 2 + (rotate_y m θ p).z ^ 2 = p.x ^ 2 + p.z ^ 2 := by
  intro m
  refine ⟨?_, rfl, ?_⟩
  · simp [rotate_y, m]
  · simp only [rotate_y, m]
    have h := Real.sin_sq_add_cos_sq θ
    have hx : (p.x * Real.cos θ + p.z * Real.sin θ) ^ 2 +
        (-Real.sin θ * p.x + Real.cos θ * p.z) ^ 2 =
        (p.x ^ 2 + p.z ^ 2) * (Real.sin θ ^ 2 + Real.cos θ ^ 2) := by ring
    rw [hx, h, mul_one]

/-- C7. A point directly ahead of the camera projects to the centre: for every camera
position, horizontal angle `h` and distance `d > 0`,
`project_with_camera (pos + (sin h * d, 0, cos h * d)) = (0, 0)`. -/
theorem C7_ahead_projects_to_centre (player : Player ℝ) (d : ℝ) (_hd : 0 < d) :
    let m : Libm ℝ := Libm.mk Real.cos Real.sin Real.tan Real.pi
    let h : ℝ := player.m_horizontal_view_angle
    project_with_camera m (player.m_pos + ⟨Real.sin h * d, 0, Real.cos h * d⟩) player =
      ⟨0, 0⟩ := by
  intro m h
  have hrot : rotate_y m (-player.m_horizontal_view_angle)
      (player.m_pos + ⟨Real.sin h * d, 0, Real.cos h * d⟩ - player.m_pos) = ⟨0, 0, d⟩ := by
    simp only [rotate_y, Point3D.sub_def, Point3D.add_def, m, Real.cos_neg, Real.sin_neg, h]
    have hs := Real.sin_sq_add_cos_sq player.m_horizontal_view_angle
    congr 1
    · ring
    · ring
    · have e : - -Real.sin player.m_horizontal_view_angle *
          (player.m_pos.x + Real.sin player.m_horizontal_view_angle * d - player.m_pos.x) +
          Real.cos player.m_horizontal_view_angle *
          (player.m_pos.z + Real.cos player.m_horizontal_view_angle * d - player.m_pos.z) =
          d * (Real.sin player.m_horizontal_view_angle ^ 2 +
            Real.cos player.m_horizontal_view_angle ^ 2) := by ring
      rw [e, hs, mul_one]
  rw [project_with_camera_eq, hrot]
  simp

/-- Witnesses for C7, the two scenarios of the specification: camera at the origin with
`h = 0` and world point `(0, 0, 3)`; camera at the origin with `h = π/2` and world point
`(1, 0, 0)`. -/
theorem C7_ahead_projects_to_centre_witness :
    ((0 : ℝ) < 3 ∧
      project_with_camera (Libm.mk Real.cos Real.sin Real.tan Real.pi)
        (⟨0, 0, 3⟩ : Point3D ℝ) (Player.init 0 0 0) = ⟨0, 0⟩) ∧
    ((0 : ℝ) < 1 ∧
      project_with_camera (Libm.mk Real.cos Real.sin Real.tan Real.pi)
        (⟨1, 0, 0⟩ : Point3D ℝ) ⟨⟨0, 0, 0⟩, 0, Real.pi / 2⟩ = ⟨0, 0⟩) := by
  have h3 : (0 : ℝ) < 3 := by norm_num
  have h1 : (0 : ℝ) < 1 := by norm_num
  have a := C7_ahead_projects_to_centre (Player.init 0 0 0) 3 h3
  have b := C7_ahead_projects_to_centre ⟨⟨0, 0, 0⟩, 0, Real.pi / 2⟩ 1 h1
  simp only [Player.init, Point3D.add_def, Real.sin_zero, Real.cos_zero, Real.sin_pi_div_two,
    Real.cos_pi_div_two, zero_mul, one_mul, mul_one, zero_add, add_zero] at a b
  exact ⟨⟨h3, a⟩, ⟨h1, b⟩⟩

/-! ## C8 - C9 : camera movement -/

/-- C8. `move_forward d` changes the position by exactly `(sin h * d, 0, cos h * d)` and
leaves `position.y` and both view angles unchanged; `move_backward d` gives the same state
as `move_forward (-d)`; `move_forward 1` changes the position by `(0, 0, 1)` when `h = 0` and
by `(1, 0, 0)` when `h = π/2`. -/
theorem C8_move_forward (player : Player ℝ) (d : ℝ) :
    let m : Libm ℝ := Libm.mk Real.cos Real.sin Real.tan Real.pi
    let h : ℝ := player.m_horizontal_view_angle
    (player.move_forward m d).m_pos = player.m_pos + ⟨Real.sin h * d, 0, Real.cos h * d⟩ ∧
    (player.move_forward m d).m_pos.y = player.m_pos.y ∧
    (player.move_forward m d).m_horizontal_view_angle = player.m_horizontal_view_angle ∧
    (player.move_forward m d).m_vertical_view_angle = player.m_vertical_view_angle ∧
    player.move_backward m d = player.move_forward m (-d) ∧
    (∀ (pos : Point3D ℝ) (v : ℝ),
      (Player.move_forward m ⟨pos, v, 0⟩ 1).m_pos = pos + ⟨0, 0, 1⟩) ∧
    (∀ (pos : Point3D ℝ) (v : ℝ),
      (Player.move_forward m ⟨pos, v, Real.pi / 2⟩ 1).m_pos = pos + ⟨1, 0, 0⟩) := by
  intro m h
  refine ⟨?_, rfl, rfl, rfl, rfl, ?_, ?_⟩
  · simp [Player.move_forward, Point3D.add_def, m, h]
  · intro pos v
    simp [Player.move_forward, Point3D.add_def, m]
  · intro pos v
    simp [Player.move_forward, Point3D.add_def, m]

/-- C9. `move_left d` changes the position by exactly `(-cos h * d, 0, sin h * d)`,
`move_right d` gives the same state as `move_left (-d)`, `move_y dy` changes only
`position.y`, by `dy`, whatever the view angles; none of the three changes a view angle. -/
theorem C9_move_left_right_y (player : Player ℝ) (d : ℝ) :
    let m : Libm ℝ := Libm.mk Real.cos Real.sin Real.tan Real.pi
    let h : ℝ := player.m_horizontal_view_angle
    (player.move_left m d).m_pos = player.m_pos + ⟨-Real.cos h * d, 0, Real.sin h * d⟩ ∧
    player.move_right m d = player.move_left m (-d) ∧
    (player.move_y d).m_pos = player.m_pos + ⟨0, d, 0⟩ ∧
    (player.move_y d).m_pos = ⟨player.m_pos.x, player.m_pos.y + d, player.m_pos.z⟩ ∧
    ((player.move_left m d).m_horizontal_view_angle = player.m_horizontal_view_angle ∧
      (player.move_left m d).m_vertical_view_angle = player.m_vertical_view_angle) ∧
    ((player.move_right m d).m_horizontal_view_angle = player.m_horizontal_view_angle ∧
      (player.move_right m d).m_vertical_view_angle = player.m_vertical_view_angle) ∧
    ((player.move_y d).m_horizontal_view_angle = player.m_horizontal_view_angle ∧
      (player.move_y d).m_vertical_view_angle = player.m_vertical_view_angle) := by
  intro m h
  refine ⟨?_, rfl, ?_, rfl, ⟨rfl, rfl⟩, ⟨rfl, rfl⟩, ⟨rfl, rfl⟩⟩
  · simp only [Player.move_left, Point3D.add_def, m, h, add_zero]
    congr 1
    ring
  · simp [Player.move_y, Point3D.add_def]

/-! ## C10 : look update -/

/-- C10. Vertical look clamp.  One pointer-motion update sets
`vertical_angle = clamp (vertical_angle + dy/400) (-π/2) (π/2)` and
`horizontal_angle = horizontal_angle + dx/400` (no clamp) and leaves the position alone.
Starting from the constructed camera, after any sequence of updates the vertical angle lies
in `[-π/2, π/2]` and the horizontal angle is the sum of all `dx`, divided by 400; an update
with `dy = 1000` from the constructed camera gives exactly `π/2`, and any further updates
with `dy ≥ 0` leave it at exactly `π/2`. -/
theorem C10_vertical_look_clamp (x y z : ℝ) (evs : List (ℤ × ℤ)) :
    let m : Libm ℝ := Libm.mk Real.cos Real.sin Real.tan Real.pi
    (Player.init x y z).m_vertical_view_angle = 0 ∧
    (∀ (player : Player ℝ) (dx dy : ℤ),
      (mouse_motion m player dx dy).m_vertical_view_angle =
        clamp_spec (player.m_vertical_view_angle + (dy : ℝ) / 400)
          (-(Real.pi / 2)) (Real.pi / 2) ∧
      (mouse_motion m player dx dy).m_horizontal_view_angle =
        player.m_horizontal_view_angle + (dx : ℝ) / 400 ∧
      (mouse_motion m player dx dy).m_pos = player.m_pos) ∧
    (-(Real.pi / 2) ≤ (mouse_motions m (Player.init x y z) evs).m_vertical_view_angle ∧
      (mouse_motions m (Player.init x y z) evs).m_vertical_view_angle ≤ Real.pi / 2) ∧
    (mouse_motions m (Player.init x y z) evs).m_horizontal_view_angle =
      (((evs.map Prod.fst).sum : ℤ) : ℝ) / 400 ∧
    (∀ dx : ℤ, (mouse_motion m (Player.init x y z) dx 1000).m_vertical_view_angle =
      Real.pi / 2) ∧
    (∀ (dx : ℤ) (more : List (ℤ × ℤ)), (∀ ev ∈ more, 0 ≤ ev.2) →
      (mouse_motions m (mouse_motion m (Player.init x y z) dx 1000) more).m_vertical_view_angle =
        Real.pi / 2) := by
  intro m
  have hpi := Real.pi_pos
  have hpi4 := Real.pi_le_four
  have h1000 : ∀ dx : ℤ,
      (mouse_motion m (Player.init x y z) dx 1000).m_vertical_view_angle = Real.pi / 2 := by
    intro dx
    rw [mouse_motion_vertical]
    have e : (Player.init x y z).m_vertical_view_angle + ((1000 : ℤ) : ℝ) / 400 = 5 / 2 := by
      norm_num [Player.init]
    rw [e]
    unfold clamp_spec
    rw [min_eq_right (by linarith), max_eq_right (by linarith)]
  refine ⟨rfl, ?_, ?_, ?_, h1000, ?_⟩
  · intro player dx dy
    exact ⟨mouse_motion_vertical player dx dy, rfl, rfl⟩
  · refine mouse_motions_vertical_mem evs _ ?_
    simp only [Player.init]
    constructor <;> linarith
  · rw [mouse_motions_horizontal]
    simp [Player.init]
  · intro dx more hmore
    exact mouse_motions_vertical_top more _ (h1000 dx) hmore

/-! ## C11 - C12 : vector arithmetic and the horizontal angle modulo 2π -/

/-- C11. Vector math: `a + b = b + a` and `(a + b) - b = a` for all points; the operators
`+`, `-` and `*` (by a scalar) are componentwise.  They are functions of their operands, so
no operand is modified. -/
theorem C11_vector_math (a b : Point3D ℝ) (k : ℝ) :
    a + b = b + a ∧
    (a + b) - b = a ∧
    a + b = ⟨a.x + b.x, a.y + b.y, a.z + b.z⟩ ∧
    a - b = ⟨a.x - b.x, a.y - b.y, a.z - b.z⟩ ∧
    a * k = ⟨a.x * k, a.y * k, a.z * k⟩ := by
  refine ⟨?_, ?_, rfl, rfl, rfl⟩
  · simp only [Point3D.add_def, add_comm]
  · simp only [Point3D.add_def, Point3D.sub_def, add_sub_cancel_right]

/-- C12. Equivalence modulo 2π of the horizontal angle: a camera with horizontal angle
`h + 2πk`, `k` an integer, gives the same `project_with_camera` result and the same position
after `move_forward d` and after `move_left d` as a camera with horizontal angle `h`. -/
theorem C12_horizontal_angle_mod_two_pi (p pos : Point3D ℝ) (v h d : ℝ) (k : ℤ) :
    let m : Libm ℝ := Libm.mk Real.cos Real.sin Real.tan Real.pi
    project_with_camera m p ⟨pos, v, h + 2 * Real.pi * k⟩ = project_with_camera m p ⟨pos, v, h⟩ ∧
    (Player.move_forward m ⟨pos, v, h + 2 * Real.pi * k⟩ d).m_pos =
      (Player.move_forward m ⟨pos, v, h⟩ d).m_pos ∧
    (Player.move_left m ⟨pos, v, h + 2 * Real.pi * k⟩ d).m_pos =
      (Player.move_left m ⟨pos, v, h⟩ d).m_pos := by
  intro m
  have e : h + 2 * Real.pi * k = h + k * (2 * Real.pi) := by ring
  have hc : Real.cos (h + 2 * Real.pi * k) = Real.cos h := by
    rw [e]; exact Real.cos_add_int_mul_two_pi h k
  have hs : Real.sin (h + 2 * Real.pi * k) = Real.sin h := by
    rw [e]; exact Real.sin_add_int_mul_two_pi h k
  refine ⟨?_, ?_, ?_⟩
  · simp only [project_with_camera_eq, rotate_y, m, Real.cos_neg, Real.sin_neg, hc, hs]
  · simp only [Player.move_forward, m, hc, hs]
  · simp only [Player.move_left, m, hc, hs]

/-! ## C13 - C15 : the cube -/

/-- C16. The table `cube_faces` has exactly 4 faces (of 4 vertices each, by its type); every
vertex has all coordinates in `{-0.5, 0.5}`; consecutive vertices of each closed quad, last to
first included, differ in exactly one coordinate; the 4 closed quads give 16 segments, whose
distinct undirected edges are exactly the 12 edges of the cube `[-0.5, 0.5]^3`, so 4 segments
are duplicates; no face of the table is the left (`x = -0.5`) or the right (`x = 0.5`) face. -/
theorem C16_cube_faces_table :
    (cube_faces : List (Face ℚ)).length = 4 ∧
    (∀ f ∈ (cube_faces : List (Face ℚ)), ∀ j : Fin 4,
      ((f j).x = -0.5 ∨ (f j).x = 0.5) ∧ ((f j).y = -0.5 ∨ (f j).y = 0.5) ∧
        ((f j).z = -0.5 ∨ (f j).z = 0.5)) ∧
    (∀ f ∈ (cube_faces : List (Face ℚ)), ∀ j : Fin 4, differ_in_one (f j) (f (j + 1))) ∧
    (∀ f ∈ (cube_faces : List (Face ℚ)),
      face_segments f = (List.finRange 4).map fun j => (f j, f (j + 1))) ∧
    (cube_segments : List (Point3D ℚ × Point3D ℚ)).length = 16 ∧
    ((cube_segments : List (Point3D ℚ × Point3D ℚ)).map Sym2.mk).dedup.length = 12 ∧
    ((cube_segments : List (Point3D ℚ × Point3D ℚ)).map Sym2.mk).toFinset =
      ((unit_cube_edges : List (Point3D ℚ × Point3D ℚ)).map Sym2.mk).toFinset ∧
    (((unit_cube_edges : List (Point3D ℚ × Point3D ℚ)).map Sym2.mk).toFinset).card = 12 ∧
    (∀ f ∈ (cube_faces : List (Face ℚ)),
      ¬ (∀ j : Fin 4, (f j).x = -0.5) ∧ ¬ (∀ j : Fin 4, (f j).x = 0.5)) := by
  refine ⟨rfl, ?_, ?_, ?_, rfl, ?_, ?_, ?_, ?_⟩
  · decide!
  · decide!
  · decide!
  · decide!
  · decide!
  · decide!
  · decide!

/-! ## C17 : the axes -/

/-- C17 (as amended). `Axes.draw` emits, for each of the three axes, one shaft segment from
the projected anchor `get_onscreen_point pos` to the projected tip
`get_onscreen_point (pos + unit axis * length)`, followed by the glyph segments at that tip:
2 for x, 3 for y, 3 for z.  Every glyph endpoint is the projected tip plus an offset taken
from a constant table, and the non-zero offset components are between 5 and 25 pixels in
magnitude. -/
theorem C17_axes_draw (s : Screen) (axes : Axes ℝ) (player : Player ℝ) :
    let m : Libm ℝ := Libm.mk Real.cos Real.sin Real.tan Real.pi
    let anchor : Point2D ℝ := get_onscreen_point m s axes.m_pos player
    let tipx : Point2D ℝ :=
      get_onscreen_point m s (axes.m_pos + (⟨1, 0, 0⟩ : Point3D ℝ) * axes.m_length) player
    let tipy : Point2D ℝ :=
      get_onscreen_point m s (axes.m_pos + (⟨0, 1, 0⟩ : Point3D ℝ) * axes.m_length) player
    let tipz : Point2D ℝ :=
      get_onscreen_point m s (axes.m_pos + (⟨0, 0, 1⟩ : Point3D ℝ) * axes.m_length) player
    Axes.draw m s axes player =
      (⟨anchor.x, anchor.y, tipx.x, tipx.y⟩ :: Axes.glyph_at tipx Axes.x_glyph) ++
      (⟨anchor.x, anchor.y, tipy.x, tipy.y⟩ :: Axes.glyph_at tipy Axes.y_glyph) ++
      (⟨anchor.x, anchor.y, tipz.x, tipz.y⟩ :: Axes.glyph_at tipz Axes.z_glyph) ∧
    ((Axes.x_glyph : List (Line2D ℝ)).length = 2 ∧ (Axes.y_glyph : List (Line2D ℝ)).length = 3 ∧
      (Axes.z_glyph : List (Line2D ℝ)).length = 3) ∧
    (∀ o ∈ (Axes.x_glyph ++ Axes.y_glyph ++ Axes.z_glyph : List (Line2D ℝ)),
      ∀ c ∈ [o.x1, o.y1, o.x2, o.y2], c ≠ 0 → 5 ≤ |c| ∧ |c| ≤ 25) := by
  intro m anchor tipx tipy tipz
  refine ⟨?_, ⟨rfl, rfl, rfl⟩, ?_⟩
  · have ex : axes.m_pos + (⟨1, 0, 0⟩ : Point3D ℝ) * axes.m_length =
        axes.m_pos + ⟨1 * axes.m_length, 0, 0⟩ := by simp [Point3D.scale_def]
    have ey : axes.m_pos + (⟨0, 1, 0⟩ : Point3D ℝ) * axes.m_length =
        axes.m_pos + ⟨0, 1 * axes.m_length, 0⟩ := by simp [Point3D.scale_def]
    have ez : axes.m_pos + (⟨0, 0, 1⟩ : Point3D ℝ) * axes.m_length =
        axes.m_pos + ⟨0, 0, 1 * axes.m_length⟩ := by simp [Point3D.scale_def]
    simp only [Axes.draw, Axes.glyph_at, Axes.x_glyph, Axes.y_glyph, Axes.z_glyph, anchor, tipx,
      tipy, tipz, ex, ey, ez, List.map_cons, List.map_nil, List.cons_append, List.nil_append,
      add_zero, sub_eq_add_neg]
  · intro o ho c hc hne
    simp only [Axes.x_glyph, Axes.y_glyph, Axes.z_glyph, List.cons_append, List.nil_append,
      List.mem_cons, List.mem_singleton, List.not_mem_nil, or_false] at ho
    rcases ho with rfl | rfl | rfl | rfl | rfl | rfl | rfl | rfl <;>
      · simp only [List.mem_cons, List.mem_singleton, List.not_mem_nil, or_false] at hc
        rcases hc with rfl | rfl | rfl | rfl <;> first
          | exact absurd rfl hne
          | (constructor <;> norm_num [abs_of_pos, abs_of_neg])

/-- C17, the claim as stated fails: for the axes of `main` (anchor `(1, 0.5, 3)`, length 1)
seen from the origin on an 800 x 600 screen, the glyph of the y axis has an endpoint whose
offset from the projected tip has a component of 5 pixels, below the claimed 10. -/
theorem C17_axes_glyph_offset_counterexample :
    ¬ (∀ seg ∈ ((Axes.draw (Libm.mk Real.cos Real.sin Real.tan Real.pi) ⟨800, 600⟩
          (Axes.init (⟨1, 0.5, 3⟩ : Point3D ℝ) 1) (Player.init 0 0 0)).drop 4).take 3,
        ∀ c ∈ [seg.x1 - (get_onscreen_point (Libm.mk Real.cos Real.sin Real.tan Real.pi)
                  ⟨800, 600⟩ ((⟨1, 0.5, 3⟩ : Point3D ℝ) + ⟨0, 1 * 1, 0⟩) (Player.init 0 0 0)).x,
               seg.x2 - (get_onscreen_point (Libm.mk Real.cos Real.sin Real.tan Real.pi)
                  ⟨800, 600⟩ ((⟨1, 0.5, 3⟩ : Point3D ℝ) + ⟨0, 1 * 1, 0⟩) (Player.init 0 0 0)).x],
          c ≠ 0 → 10 ≤ |c| ∧ |c| ≤ 25) := by
  intro h
  have h5 := h ⟨_, _, _, _⟩
    (by simp only [Axes.draw, Axes.init, List.drop_succ_cons, List.drop_zero, List.take_succ_cons,
          List.mem_cons]
        exact Or.inr (Or.inl rfl))
    5 (by simp) (by norm_num)
  norm_num at h5

/-! ## C18 - C19 : consequences -/

/-- C19. Movement is consistent with the view transform.  With `c = rotate_y (-h) (p - pos)`
the camera-space coordinates of `p` before the move, the camera-space coordinates of `p`
after `move_forward d` are `(c.x, c.y, c.z - d)` and after `move_left d` are
`(c.x + d, c.y, c.z)`: forward is the camera depth axis and left is its negative x axis, for
every horizontal angle. -/
theorem C19_movement_in_camera_space (player : Player ℝ) (p : Point3D ℝ) (d : ℝ) :
    let m : Libm ℝ := Libm.mk Real.cos Real.sin Real.tan Real.pi
    let c : Point3D ℝ := rotate_y m (-player.m_horizontal_view_angle) (p - player.m_pos)
    rotate_y m (-(player.move_forward m d).m_horizontal_view_angle)
        (p - (player.move_forward m d).m_pos) = ⟨c.x, c.y, c.z - d⟩ ∧
    rotate_y m (-(player.move_left m d).m_horizontal_view_angle)
        (p - (player.move_left m d).m_pos) = ⟨c.x + d, c.y, c.z⟩ := by
  intro m c
  have hs := Real.sin_sq_add_cos_sq player.m_horizontal_view_angle
  constructor
  · simp only [rotate_y, Player.move_forward, Point3D.sub_def, m, c, Real.cos_neg, Real.sin_neg]
    congr 1
    · ring
    · have e : - -Real.sin player.m_horizontal_view_angle *
          (p.x - (player.m_pos.x + Real.sin player.m_horizontal_view_angle * d)) +
          Real.cos player.m_horizontal_view_angle *
          (p.z - (player.m_pos.z + Real.cos player.m_horizontal_view_angle * d)) =
          - -Real.sin player.m_horizontal_view_angle * (p.x - player.m_pos.x) +
          Real.cos player.m_horizontal_view_angle * (p.z - player.m_pos.z) -
          d * (Real.sin player.m_horizontal_view_angle ^ 2 +
            Real.cos player.m_horizontal_view_angle ^ 2) := by ring
      rw [e, hs, mul_one]
  · simp only [rotate_y, Player.move_left, Point3D.sub_def, m, c, Real.cos_neg, Real.sin_neg]
    congr 1
    · have e : (p.x - (player.m_pos.x - Real.cos player.m_horizontal_view_angle * d)) *
          Real.cos player.m_horizontal_view_angle +
          (p.z - (player.m_pos.z + Real.sin player.m_horizontal_view_angle * d)) *
          -Real.sin player.m_horizontal_view_angle =
          (p.x - player.m_pos.x) * Real.cos player.m_horizontal_view_angle +
          (p.z - player.m_pos.z) * -Real.sin player.m_horizontal_view_angle +
          d * (Real.sin player.m_horizontal_view_angle ^ 2 +
            Real.cos player.m_horizontal_view_angle ^ 2) := by ring
      rw [e, hs, mul_one]
    · ring

end DDD
